import Mathlib

/-
Verification of the Kronos storage core against its specification.

Embedded source:
  * src/kronos/kronos/utils/math.py — the time and identifier module
    (time_to_kronos_time, kronos_time_to_time, uuid_to_kronos_time,
    uuid_from_kronos_time, round_down);
  * src/kronos/kronos/storage/cassandra/client.py — the retrieve and
    delete paths of CassandraStorage (_retrieve, _delete).

Conventions of the embedding:
  * Python long arithmetic is exact integer arithmetic; Python `x & (2^n - 1)`
    on a long is `x % 2^n` and `x >> n` is `x / 2^n`, where `%` and `/` are
    the Lean `Int.emod` and `Int.ediv`: Python uses infinite two-complement
    semantics, so `&` of a mask keeps a non-negative remainder and `>>` is
    floor division, and with a positive power-of-two divisor Euclidean and
    floor division and remainder coincide.
  * Python `%` between integers is `Int.fmod` (the result takes the sign of
    the divisor), and `%` with divisor 0 raises ZeroDivisionError.
  * Python `int(...)` applied to a float truncates toward zero.
  * CPython floats are IEEE-754 binary64 values; they are embedded as the
    rationals with an integer mantissa of magnitude below 2^53 times a power
    of two (`IsRepr`), and every arithmetic operation rounds its exact
    rational value to a nearest representable (`RoundsTo`).  The exponent
    range is unbounded in the model, which is adequate at the magnitudes
    appearing below, and ties — which CPython breaks to even — are left
    underdetermined; no statement below depends on a tie.
  * The 128-bit ids are embedded as natural numbers (the big-endian value of
    the UUID); the lexicographic order on the encoding is the order on ℕ.
  * Two collaborators of the embedded code are not under src/ and are
    modelled from their documented interfaces: the CPython uuid module
    (UUID field packing, the `time` property, and the fields drawn from
    `uuid4()`), and kronos/storage/cassandra/internal.py, whose
    `Stream.iterator` and `Stream.delete` are modelled from the
    specification (spec.md §4.4 boundary rule and §4.5); the definitions
    concerned carry a `Modelled from the spec` note.
-/

namespace Kronos

/-- Gregorian-to-Unix offset of the UUID v1 timestamp encoding,
`0x01b21dd213814000` in src/kronos/kronos/utils/math.py. -/
def gregorianOffset : ℤ := 0x01b21dd213814000

/-- Kind tag dispatched on by `uuid_from_kronos_time`
(`UUIDType` of kronos/utils/uuid.py; the three branches are in
src/kronos/kronos/utils/math.py lines 59-71). -/
inductive UUIDType where
  | LOWEST
  | HIGHEST
  | RANDOM
deriving DecidableEq

/-- Field packing of the CPython `uuid.UUID(fields=...)` constructor:
`time_low` is the most significant 32 bits, then `time_mid` (16),
`time_hi_version` (16), `clock_seq_hi_variant` (8), `clock_seq_low` (8)
and `node` (48).  `TimeUUID` (kronos/utils/uuid.py, not under src/)
passes its `fields` argument through to this constructor. -/
def uuidFromFields (time_low time_mid time_hi_version
    clock_seq_hi_variant clock_seq_low node : ℕ) : ℕ :=
  time_low * 2 ^ 96 + time_mid * 2 ^ 80 + time_hi_version * 2 ^ 64 +
    clock_seq_hi_variant * 2 ^ 56 + clock_seq_low * 2 ^ 48 + node

/-- `clock_seq_hi_variant` of `uuid4()` seeded with the 128 random bits `r`:
CPython overwrites the two top bits of the byte with the RFC 4122 variant
`10`, so the byte is `((r >> 56) & 0x3f) | 0x80`. -/
def uuid4ClockSeqHiVariant (r : ℕ) : ℕ := (r >>> 56) % 2 ^ 6 + 0x80

/-- `clock_seq_low` of `uuid4()` seeded with the 128 random bits `r`. -/
def uuid4ClockSeqLow (r : ℕ) : ℕ := (r >>> 48) % 2 ^ 8

/-- `node` of `uuid4()` seeded with the 128 random bits `r`. -/
def uuid4Node (r : ℕ) : ℕ := r % 2 ^ 48

/-- `uuid_from_kronos_time` (src/kronos/kronos/utils/math.py lines 44-77).
`r` stands for the 128 random bits drawn by `uuid4()` inside the RANDOM
branch; the LOWEST and HIGHEST branches do not read it. -/
def uuid_from_kronos_time (time : ℤ) (t : UUIDType) (r : ℕ) : ℕ :=
  let timestamp : ℤ := time + gregorianOffset
  let time_low : ℕ := (timestamp % 2 ^ 32).toNat
  let time_mid : ℕ := (timestamp / 2 ^ 32 % 2 ^ 16).toNat
  let time_hi_version : ℕ := (timestamp / 2 ^ 48 % 2 ^ 12).toNat
  match t with
  | .LOWEST => uuidFromFields time_low time_mid time_hi_version 0 0 0
  | .HIGHEST => uuidFromFields time_low time_mid time_hi_version
      0x3f 0xff 0xffffffffffff
  | .RANDOM => uuidFromFields time_low time_mid time_hi_version
      (uuid4ClockSeqHiVariant r) (uuid4ClockSeqLow r) (uuid4Node r)

/-- The `time` property of a CPython `uuid.UUID` with value `u`:
`((time_hi_version & 0x0fff) << 48) | (time_mid << 32) | time_low`.
No version check is performed by CPython. -/
def uuidTime (u : ℕ) : ℕ :=
  ((u >>> 64) % 2 ^ 16 % 2 ^ 12) * 2 ^ 48 +
    ((u >>> 80) % 2 ^ 16) * 2 ^ 32 + (u >>> 96) % 2 ^ 32

/-- The version nibble of a 128-bit UUID value (bits 76-79). -/
def uuidVersion (u : ℕ) : ℕ := (u >>> 76) % 2 ^ 4

/-- Argument passed to `uuid_to_kronos_time`: either a UUID instance with the
given 128-bit value, or a value of any other Python type. -/
inductive PyUuidArg where
  | uuid (n : ℕ)
  | notUuid

/-- `uuid_to_kronos_time` (src/kronos/kronos/utils/math.py lines 34-40):
raises a generic `Exception` when the argument is not a UUID instance, and
otherwise returns `uuid.time - 0x01b21dd213814000`.  The source performs no
version check. -/
def uuid_to_kronos_time : PyUuidArg → Except String ℤ
  | .uuid n => .ok ((uuidTime n : ℤ) - gregorianOffset)
  | .notUuid => .error "Expected type UUID"

/-- A stored event: its 128-bit id and its serialized form (`event.json` in
the source). -/
structure Event where
  id : ℕ
  json : String
deriving DecidableEq

/-- Insertion step of the ascending-by-id ordering of a shard. -/
def insertById (e : Event) : List Event → List Event
  | [] => [e]
  | f :: rest => if e.id ≤ f.id then e :: f :: rest else f :: insertById e rest

/-- Ascending-by-id ordering of stored events. -/
def sortById : List Event → List Event
  | [] => []
  | e :: rest => insertById e (sortById rest)

/-- Modelled from the spec: `Stream.iterator` of
kronos/storage/cassandra/internal.py is not under src/.  Per spec.md §4.4,
the merged iterator emits exactly the stored events whose id lies in the
range inclusive of both bounds (boundary rule), in ascending id order, or
descending when `descending` is true, and stops after `limit` events when a
limit is given. -/
def streamIterator (stored : List Event) (start_id end_id : ℕ)
    (descending : Bool) (limit : Option ℕ) : List Event :=
  let ranged := sortById (stored.filter fun e =>
    decide (start_id ≤ e.id ∧ e.id ≤ end_id))
  let ordered := if descending then ranged.reverse else ranged
  match limit with
  | none => ordered
  | some l => ordered.take l

/-- The generator body of `_retrieve`
(src/kronos/kronos/storage/cassandra/client.py lines 125-131): the first
event of the iterator is skipped precisely when its id equals `start_id`;
every later event is emitted unconditionally.  An exhausted iterator raises
StopIteration, which under Python 2 generator semantics terminates the
generator normally, so an empty input produces an empty output. -/
def skipStart (start_id : ℕ) : List Event → List Event
  | [] => []
  | e :: rest => if e.id = start_id then rest else e :: rest

/-- `_retrieve` (src/kronos/kronos/storage/cassandra/client.py lines
107-131): the upper bound is synthesized as
`uuid_from_kronos_time(end_time, HIGHEST)` and the underlying iterator
output is passed through the first-event skip. -/
def retrieveEvents (stored : List Event) (start_id : ℕ) (end_time : ℤ)
    (descending : Bool) (limit : Option ℕ) : List Event :=
  skipStart start_id
    (streamIterator stored start_id
      (uuid_from_kronos_time end_time .HIGHEST 0) descending limit)

/-- `_delete` (src/kronos/kronos/storage/cassandra/client.py lines 92-105),
returning the events that remain stored: the upper bound is synthesized as
`uuid_from_kronos_time(end_time, HIGHEST)`.  Modelled from the spec for the
range semantics: per spec.md §4.5 `Stream.delete` (internal.py, not under
src/) removes exactly the events with `start_id ≤ id ≤ end_id`. -/
def deleteEvents (stored : List Event) (start_id : ℕ) (end_time : ℤ) :
    List Event :=
  stored.filter fun e =>
    decide (¬ (start_id ≤ e.id ∧
      e.id ≤ uuid_from_kronos_time end_time .HIGHEST 0))

/-- `round_down` (src/kronos/kronos/utils/math.py lines 82-87):
`int(value - (value % base))`.  Python `%` takes the sign of the divisor
(`Int.fmod`) and raises ZeroDivisionError when the divisor is 0. -/
def round_down (value base : ℤ) : Except String ℤ :=
  if base = 0 then .error "ZeroDivisionError"
  else .ok (value - Int.fmod value base)

/-- The finite IEEE-754 binary64 values, with unbounded exponent range:
an integer mantissa of magnitude below 2^53 times a power of two. -/
def IsRepr (q : ℚ) : Prop :=
  ∃ m e : ℤ, m.natAbs < 2 ^ 53 ∧ q = (m : ℚ) * (2 : ℚ) ^ e

/-- `r` is a result of rounding the exact value `x` to binary64: `r` is
representable and no representable value is closer to `x`.  At a tie both
neighbours satisfy the relation (CPython rounds ties to even; no statement
below depends on a tie). -/
def RoundsTo (x r : ℚ) : Prop :=
  IsRepr r ∧ ∀ d : ℚ, IsRepr d → |x - r| ≤ |x - d|

/-- Python `int(...)` applied to a float value: truncation toward zero. -/
def pyTrunc (q : ℚ) : ℤ := if 0 ≤ q then ⌊q⌋ else ⌈q⌉

/-- `time_to_kronos_time` (src/kronos/kronos/utils/math.py lines 16-23) on a
numeric input, as a relation between the input and the produced integer:
`int(float(time) * 1e7)`, where `float(time)` rounds the input to binary64
and the multiplication by the exact constant 1e7 = 10^7 rounds its exact
product.  (A datetime input is first converted to its Unix seconds and then
follows the same path.) -/
def time_to_kronos_time (s : ℚ) (k : ℤ) : Prop :=
  ∃ sf p : ℚ, RoundsTo s sf ∧ RoundsTo (sf * 10 ^ 7) p ∧ k = pyTrunc p

/-- `kronos_time_to_time` (src/kronos/kronos/utils/math.py lines 31-32) as a
relation: `float(kronos_time) / 1e7`, where `float(kronos_time)` rounds the
integer to binary64 and the division by the exact constant 10^7 rounds its
exact quotient. -/
def kronos_time_to_time (k : ℤ) (r : ℚ) : Prop :=
  ∃ kf : ℚ, RoundsTo (k : ℚ) kf ∧ RoundsTo (kf / 10 ^ 7) r

/-- The three id kinds differ only in their low 64 bits; for a non-negative
timestamp the time fields are the base-2^96, 2^80 and 2^64 digits of the
natural timestamp value. -/
theorem uuid_from_kronos_time_eq (time : ℤ) (h : 0 ≤ time + gregorianOffset)
    (t : UUIDType) (r : ℕ) :
    uuid_from_kronos_time time t r =
      uuidFromFields ((time + gregorianOffset).toNat % 2 ^ 32)
        ((time + gregorianOffset).toNat / 2 ^ 32 % 2 ^ 16)
        ((time + gregorianOffset).toNat / 2 ^ 48 % 2 ^ 12)
        (match t with
          | .LOWEST => 0
          | .HIGHEST => 0x3f
          | .RANDOM => uuid4ClockSeqHiVariant r)
        (match t with
          | .LOWEST => 0
          | .HIGHEST => 0xff
          | .RANDOM => uuid4ClockSeqLow r)
        (match t with
          | .LOWEST => 0
          | .HIGHEST => 0xffffffffffff
          | .RANDOM => uuid4Node r) := by
  have p32 : ((2 : ℤ) ^ 32) = 4294967296 := by norm_num
  have p16 : ((2 : ℤ) ^ 16) = 65536 := by norm_num
  have p48 : ((2 : ℤ) ^ 48) = 281474976710656 := by norm_num
  have p12 : ((2 : ℤ) ^ 12) = 4096 := by norm_num
  have e1 : ((time + gregorianOffset) % 2 ^ 32).toNat =
      (time + gregorianOffset).toNat % 2 ^ 32 := by rw [p32]; omega
  have e2 : ((time + gregorianOffset) / 2 ^ 32 % 2 ^ 16).toNat =
      (time + gregorianOffset).toNat / 2 ^ 32 % 2 ^ 16 := by
    rw [p32, p16]; omega
  have e3 : ((time + gregorianOffset) / 2 ^ 48 % 2 ^ 12).toNat =
      (time + gregorianOffset).toNat / 2 ^ 48 % 2 ^ 12 := by
    rw [p48, p12]; omega
  cases t <;> simp only [uuid_from_kronos_time, e1, e2, e3]

/-- Unpacking the packed fields recovers the 60-bit timestamp value. -/
theorem uuidTime_uuidFromFields (tl tm thv csh csl node : ℕ)
    (h1 : tl < 2 ^ 32) (h2 : tm < 2 ^ 16) (h3 : thv < 2 ^ 12)
    (h4 : csh < 2 ^ 8) (h5 : csl < 2 ^ 8) (h6 : node < 2 ^ 48) :
    uuidTime (uuidFromFields tl tm thv csh csl node) =
      thv * 2 ^ 48 + tm * 2 ^ 32 + tl := by
  unfold uuidTime uuidFromFields
  simp only [Nat.shiftRight_eq_div_pow]
  omega

/-- C4 (confirmed): for every kronos-time `k` whose shifted timestamp fits
the 60-bit UUID timestamp field and every kind, reading the constructed id
back through `uuid_to_kronos_time` recovers `k` exactly. -/
theorem c4_time_roundtrip (k : ℤ) (t : UUIDType) (r : ℕ)
    (h0 : 0 ≤ k + gregorianOffset) (h1 : k + gregorianOffset < 2 ^ 60) :
    uuid_to_kronos_time (.uuid (uuid_from_kronos_time k t r)) = .ok k := by
  rw [uuid_from_kronos_time_eq k h0 t r]
  have hN : ((k + gregorianOffset).toNat : ℤ) = k + gregorianOffset :=
    Int.toNat_of_nonneg h0
  have hN60 : (k + gregorianOffset).toNat < 2 ^ 60 := by omega
  show Except.ok _ = Except.ok k
  congr 1
  have hcsh : (match t with
      | UUIDType.LOWEST => 0
      | UUIDType.HIGHEST => 0x3f
      | UUIDType.RANDOM => uuid4ClockSeqHiVariant r) < 2 ^ 8 := by
    cases t <;> simp only [uuid4ClockSeqHiVariant] <;> omega
  have hcsl : (match t with
      | UUIDType.LOWEST => 0
      | UUIDType.HIGHEST => 0xff
      | UUIDType.RANDOM => uuid4ClockSeqLow r) < 2 ^ 8 := by
    cases t <;> simp only [uuid4ClockSeqLow] <;> omega
  have hnode : (match t with
      | UUIDType.LOWEST => 0
      | UUIDType.HIGHEST => 0xffffffffffff
      | UUIDType.RANDOM => uuid4Node r) < 2 ^ 48 := by
    cases t <;> simp only [uuid4Node] <;> omega
  rw [uuidTime_uuidFromFields _ _ _ _ _ _ (by omega) (by omega) (by omega)
    hcsh hcsl hnode]
  omega

/-- Witness for C4 at `k = 0`, kind HIGHEST. -/
theorem c4_witness :
    uuid_to_kronos_time
      (.uuid (uuid_from_kronos_time 0 .HIGHEST 0)) = .ok 0 :=
  c4_time_roundtrip 0 .HIGHEST 0 (by decide) (by decide)

/-- C2 (counterexample): the claimed bound ordering fails on the code in two
ways.  At `t = 0` and uuid4 draw 0 the RANDOM id exceeds the HIGHEST id,
because uuid4 forces the RFC 4122 variant bits into the clock-seq-hi byte
(`0x80 > 0x3f`); and at `t = 0xec7ebfff` (where the shifted timestamp's low
32 bits are all ones) the HIGHEST id exceeds the LOWEST id of `t + 1`,
because `time_low` occupies the most significant bits of the encoding. -/
theorem c2_counterexample :
    ¬ (uuid_from_kronos_time 0 .RANDOM 0 ≤ uuid_from_kronos_time 0 .HIGHEST 0) ∧
    ¬ (uuid_from_kronos_time 0xec7ebfff .HIGHEST 0 <
        uuid_from_kronos_time 0xec7ec000 .LOWEST 0) := by
  constructor <;> decide

/-- C2 (amended): for every kronos-time whose shifted timestamp and
successor fit the 60-bit field and every uuid4 draw `r`, the order is
LOWEST < HIGHEST < RANDOM, and HIGHEST(t) < LOWEST(t+1) holds whenever the
low 32 bits of the shifted timestamp do not wrap at `t + 1`. -/
theorem c2_amended (t : ℤ) (r : ℕ) (h0 : 0 ≤ t + gregorianOffset)
    (h1 : t + 1 + gregorianOffset < 2 ^ 60) :
    uuid_from_kronos_time t .LOWEST r < uuid_from_kronos_time t .HIGHEST r ∧
    uuid_from_kronos_time t .HIGHEST r < uuid_from_kronos_time t .RANDOM r ∧
    ((t + gregorianOffset) % 2 ^ 32 ≠ 2 ^ 32 - 1 →
      uuid_from_kronos_time t .HIGHEST r <
        uuid_from_kronos_time (t + 1) .LOWEST r) := by
  have h0' : 0 ≤ t + 1 + gregorianOffset := by omega
  rw [uuid_from_kronos_time_eq t h0 .LOWEST r,
    uuid_from_kronos_time_eq t h0 .HIGHEST r,
    uuid_from_kronos_time_eq t h0 .RANDOM r,
    uuid_from_kronos_time_eq (t + 1) h0' .LOWEST r]
  have hsucc : (t + 1 + gregorianOffset).toNat = (t + gregorianOffset).toNat + 1 := by
    omega
  rw [hsucc]
  unfold uuidFromFields uuid4ClockSeqHiVariant uuid4ClockSeqLow uuid4Node
  simp only [Nat.shiftRight_eq_div_pow]
  refine ⟨by omega, by omega, fun hwrap => ?_⟩
  rw [show ((2 : ℤ) ^ 32) = 4294967296 from by norm_num] at hwrap
  have hwrap' : (t + gregorianOffset).toNat % 2 ^ 32 ≠ 2 ^ 32 - 1 := by omega
  omega

/-- Witness for C2 amended at `t = 0`, `r = 0`. -/
theorem c2_witness :
    uuid_from_kronos_time 0 .LOWEST 0 < uuid_from_kronos_time 0 .HIGHEST 0 ∧
    uuid_from_kronos_time 0 .HIGHEST 0 < uuid_from_kronos_time 0 .RANDOM 0 ∧
    (((0 : ℤ) + gregorianOffset) % 2 ^ 32 ≠ 2 ^ 32 - 1 →
      uuid_from_kronos_time 0 .HIGHEST 0 <
        uuid_from_kronos_time (0 + 1) .LOWEST 0) :=
  c2_amended 0 0 (by decide) (by decide)

/-- C7 (counterexample): a version-4 UUID value is accepted by
`uuid_to_kronos_time` and a kronos time is returned; no InvalidUuid failure
occurs, because the source checks only that the argument is a UUID
instance. -/
theorem c7_counterexample :
    ¬ (∀ n : ℕ, uuidVersion n ≠ 1 →
        (uuid_to_kronos_time (.uuid n)).isOk = false) := by
  intro h
  exact absurd (h (4 * 2 ^ 76) (by decide)) (by decide)

/-- C7 (amended): `uuid_to_kronos_time` succeeds on every UUID instance,
whatever its version nibble, returning `uuid.time - 0x01b21dd213814000`;
only a non-UUID argument fails, with a generic exception. -/
theorem c7_amended (n : ℕ) (_hv : uuidVersion n ≠ 1) :
    uuid_to_kronos_time (.uuid n) =
      .ok ((uuidTime n : ℤ) - gregorianOffset) ∧
    (uuid_to_kronos_time .notUuid).isOk = false :=
  ⟨rfl, rfl⟩

/-- Witness for C7 amended at the version-4 value `4 * 2^76`. -/
theorem c7_witness :
    uuid_to_kronos_time (.uuid (4 * 2 ^ 76)) =
      .ok ((uuidTime (4 * 2 ^ 76) : ℤ) - gregorianOffset) ∧
    (uuid_to_kronos_time .notUuid).isOk = false :=
  c7_amended (4 * 2 ^ 76) (by decide)

/-- C1 (code bug): with two stored events whose ids are `u` and `u + 1`
(`u` the LOWEST id of time 0), a DESC retrieve with `start_id = u` emits
both events: the event with id exactly `start_id` arrives last, and the
generator of `_retrieve` checks only the first event, contradicting the
docstring `Return events with id > start_id`. -/
theorem c1_code_bug :
    retrieveEvents
      [⟨uuid_from_kronos_time 0 .LOWEST 0, "a"⟩,
       ⟨uuid_from_kronos_time 0 .LOWEST 0 + 1, "b"⟩]
      (uuid_from_kronos_time 0 .LOWEST 0) 0 true none =
      [⟨uuid_from_kronos_time 0 .LOWEST 0 + 1, "b"⟩,
       ⟨uuid_from_kronos_time 0 .LOWEST 0, "a"⟩] := by
  decide

/-- Membership is preserved by an insertion step of the ordering. -/
theorem mem_insertById {a e : Event} {l : List Event} :
    a ∈ insertById e l ↔ a = e ∨ a ∈ l := by
  induction l with
  | nil => simp [insertById]
  | cons f rest ih =>
    simp only [insertById]
    split
    · simp
    · simp only [List.mem_cons, ih]
      tauto

/-- The ordering of a shard is a permutation: membership is unchanged. -/
theorem mem_sortById {a : Event} {l : List Event} :
    a ∈ sortById l ↔ a ∈ l := by
  induction l with
  | nil => simp [sortById]
  | cons e rest ih => simp [sortById, mem_insertById, ih]

/-- An event whose id differs from `start_id` survives the first-event skip
of the `_retrieve` generator. -/
theorem mem_skipStart {e : Event} {s : ℕ} {l : List Event}
    (h : e ∈ l) (hne : e.id ≠ s) : e ∈ skipStart s l := by
  cases l with
  | nil => cases h
  | cons f rest =>
    simp only [skipStart]
    split
    · rcases List.mem_cons.mp h with rfl | hr
      · exact absurd ‹e.id = s› hne
      · exact hr
    · exact h

/-- C6 (confirmed): both `_retrieve` and `_delete` synthesize the upper
bound as `uuid_from_kronos_time(end_time, HIGHEST)`, and a stored event
whose id equals that bound is emitted by an unlimited retrieve (in either
order, provided the start-exclusivity rule does not remove it) and falls in
the deleted range. -/
theorem c6_end_inclusive (stored : List Event) (start_id : ℕ) (end_time : ℤ)
    (descending : Bool) (e : Event) (hmem : e ∈ stored)
    (hid : e.id = uuid_from_kronos_time end_time .HIGHEST 0)
    (hge : start_id ≤ e.id) :
    (e.id ≠ start_id →
      e ∈ retrieveEvents stored start_id end_time descending none) ∧
    e ∉ deleteEvents stored start_id end_time := by
  constructor
  · intro hne
    apply mem_skipStart _ hne
    show e ∈ streamIterator stored start_id
      (uuid_from_kronos_time end_time .HIGHEST 0) descending none
    unfold streamIterator
    have hf : e ∈ stored.filter (fun f =>
        decide (start_id ≤ f.id ∧
          f.id ≤ uuid_from_kronos_time end_time .HIGHEST 0)) := by
      rw [List.mem_filter]
      exact ⟨hmem, by simp [hge, le_of_eq hid]⟩
    have hs : e ∈ sortById (stored.filter (fun f =>
        decide (start_id ≤ f.id ∧
          f.id ≤ uuid_from_kronos_time end_time .HIGHEST 0))) :=
      mem_sortById.mpr hf
    cases descending <;> simpa using hs
  · intro hbad
    rw [deleteEvents, List.mem_filter] at hbad
    have hpred := hbad.2
    simp only [decide_eq_true_eq] at hpred
    exact hpred ⟨hge, le_of_eq hid⟩

/-- Witness for C6: one stored event carrying exactly the HIGHEST id of the
end time, retrieved ascending from the LOWEST id of the same time. -/
theorem c6_witness :
    ((⟨uuid_from_kronos_time 0 .HIGHEST 0, "e"⟩ : Event).id ≠
        uuid_from_kronos_time 0 .LOWEST 0 →
      (⟨uuid_from_kronos_time 0 .HIGHEST 0, "e"⟩ : Event) ∈
        retrieveEvents [⟨uuid_from_kronos_time 0 .HIGHEST 0, "e"⟩]
          (uuid_from_kronos_time 0 .LOWEST 0) 0 false none) ∧
    (⟨uuid_from_kronos_time 0 .HIGHEST 0, "e"⟩ : Event) ∉
      deleteEvents [⟨uuid_from_kronos_time 0 .HIGHEST 0, "e"⟩]
        (uuid_from_kronos_time 0 .LOWEST 0) 0 :=
  c6_end_inclusive _ _ _ false _ (by simp) rfl (by decide)

/-- C9 (confirmed): when no stored event lies in the inclusive range from
`start_id` to the synthesized HIGHEST bound, the emitted sequence is empty;
under Python 2 generator semantics the StopIteration raised by the first
advance terminates the generator normally, so no error reaches the
caller. -/
theorem c9_empty_range (stored : List Event) (start_id : ℕ) (end_time : ℤ)
    (descending : Bool) (limit : Option ℕ)
    (h : ∀ e ∈ stored, ¬ (start_id ≤ e.id ∧
        e.id ≤ uuid_from_kronos_time end_time .HIGHEST 0)) :
    retrieveEvents stored start_id end_time descending limit = [] := by
  unfold retrieveEvents streamIterator
  have hf : stored.filter (fun f =>
      decide (start_id ≤ f.id ∧
        f.id ≤ uuid_from_kronos_time end_time .HIGHEST 0)) = [] := by
    rw [List.filter_eq_nil_iff]
    intro a ha
    simpa using h a ha
  rw [hf]
  cases descending <;> cases limit <;> simp [sortById, skipStart]

/-- Witness for C9: a stored event strictly above the queried range. -/
theorem c9_witness :
    retrieveEvents [⟨uuid_from_kronos_time 0 .HIGHEST 0 + 1, "e"⟩]
      (uuid_from_kronos_time 0 .LOWEST 0) 0 false none = [] :=
  c9_empty_range _ _ _ _ _ (by decide)

/-- C10 (confirmed): `round_down(value, 0)` raises ZeroDivisionError, and
for every `base ≥ 1` and non-negative `value` the result is the greatest
multiple of `base` not exceeding `value`. -/
theorem c10_round_down (v b : ℤ) :
    (round_down v 0).isOk = false ∧
    (1 ≤ b → 0 ≤ v → ∃ r, round_down v b = .ok r ∧ b ∣ r ∧ r ≤ v ∧
      ∀ m : ℤ, b ∣ m → m ≤ v → m ≤ r) := by
  constructor
  · rfl
  · intro hb _hv
    have hb0 : b ≠ 0 := by omega
    have hdm := Int.ediv_add_emod v b
    have hm0 : 0 ≤ v % b := Int.emod_nonneg v hb0
    refine ⟨v - Int.fmod v b, by simp [round_down, hb0], ?_⟩
    rw [Int.fmod_eq_emod v (by omega)]
    refine ⟨⟨v / b, by linarith⟩, by linarith, ?_⟩
    intro m hm hmv
    obtain ⟨c, rfl⟩ := hm
    have hc : c ≤ v / b :=
      (Int.le_ediv_iff_mul_le (by omega)).mpr (by linarith)
    have : b * c ≤ b * (v / b) := by
      exact mul_le_mul_of_nonneg_left hc (by omega)
    linarith

/-- Witness for C10 at `value = 7`, `base = 3`. -/
theorem c10_witness :
    ∃ r, round_down 7 3 = .ok r ∧ (3 : ℤ) ∣ r ∧ r ≤ 7 ∧
      ∀ m : ℤ, (3 : ℤ) ∣ m → m ≤ 7 → m ≤ r :=
  (c10_round_down 7 3).2 (by norm_num) (by norm_num)

/-- A representable value rounds to itself. -/
theorem roundsTo_self {x : ℚ} (h : IsRepr x) : RoundsTo x x :=
  ⟨h, fun d _ => by simp⟩

/-- Rounding a representable value can only produce the value itself. -/
theorem roundsTo_eq_self {x r : ℚ} (hx : IsRepr x) (hr : RoundsTo x r) :
    r = x := by
  have h0 : |x - r| ≤ 0 := by simpa using hr.2 x hx
  have h1 : x - r = 0 := abs_eq_zero.mp (le_antisymm h0 (abs_nonneg _))
  linarith

/-- The correctly rounded result of a value `x` in the binade
`[2^52 * 2^e, 2^53 * 2^e]`: the normalized representable `m * 2^e` within
half an ulp of `x` is a nearest representable.  Any representable with a
coarser exponent is a multiple of `2^e` and so at least an ulp from
`m * 2^e`; any representable with a finer exponent has magnitude at most
`(2^53 - 1) * 2^(e-1)`, half an ulp below the binade. -/
theorem roundsTo_of (m e : ℤ) (x : ℚ)
    (hm1 : 2 ^ 52 ≤ m) (hm2 : m < 2 ^ 53)
    (hx1 : ((2 ^ 52 : ℤ) : ℚ) * (2 : ℚ) ^ e ≤ x)
    (hnear : |x - (m : ℚ) * (2 : ℚ) ^ e| ≤ (2 : ℚ) ^ e / 2) :
    RoundsTo x ((m : ℚ) * (2 : ℚ) ^ e) := by
  have hE : (0 : ℚ) < (2 : ℚ) ^ e := zpow_pos (by norm_num) e
  refine ⟨⟨m, e, by omega, rfl⟩, ?_⟩
  rintro d ⟨m', e', hm', rfl⟩
  rcases le_or_lt e e' with hle | hlt
  · have hd : (m' : ℚ) * (2 : ℚ) ^ e' =
        ((m' * 2 ^ (e' - e).toNat : ℤ) : ℚ) * (2 : ℚ) ^ e := by
      push_cast
      rw [mul_assoc]
      congr 1
      rw [← zpow_natCast (2 : ℚ) (e' - e).toNat,
        ← zpow_add₀ (by norm_num : (2 : ℚ) ≠ 0)]
      congr 1
      omega
    rw [hd]
    set c : ℤ := m' * 2 ^ (e' - e).toNat with hc
    by_cases hcm : c = m
    · rw [hcm]
    · have h1 : (1 : ℚ) ≤ |(c : ℚ) - (m : ℚ)| := by
        have h2 : (1 : ℤ) ≤ |c - m| := Int.one_le_abs (sub_ne_zero.mpr hcm)
        have h3 : (1 : ℚ) ≤ ((|c - m| : ℤ) : ℚ) := by exact_mod_cast h2
        rw [Int.cast_abs] at h3
        push_cast at h3
        exact h3
      have hgap : (2 : ℚ) ^ e ≤
          |(c : ℚ) * (2 : ℚ) ^ e - (m : ℚ) * (2 : ℚ) ^ e| := by
        rw [← sub_mul, abs_mul, abs_of_pos hE]
        calc (2 : ℚ) ^ e = 1 * (2 : ℚ) ^ e := (one_mul _).symm
        _ ≤ |(c : ℚ) - (m : ℚ)| * (2 : ℚ) ^ e :=
          mul_le_mul_of_nonneg_right h1 hE.le
      have htri : |(c : ℚ) * (2 : ℚ) ^ e - (m : ℚ) * (2 : ℚ) ^ e| ≤
          |x - (c : ℚ) * (2 : ℚ) ^ e| + |x - (m : ℚ) * (2 : ℚ) ^ e| := by
        have h4 := abs_sub_le ((c : ℚ) * (2 : ℚ) ^ e) x
          ((m : ℚ) * (2 : ℚ) ^ e)
        rw [abs_sub_comm ((c : ℚ) * (2 : ℚ) ^ e) x] at h4
        exact h4
      linarith
  · have hm'' : |(m' : ℚ)| ≤ ((2 ^ 53 - 1 : ℤ) : ℚ) := by
      have h2 : |m'| ≤ 2 ^ 53 - 1 := by rw [Int.abs_eq_natAbs]; omega
      have h3 : ((|m'| : ℤ) : ℚ) ≤ ((2 ^ 53 - 1 : ℤ) : ℚ) := by
        exact_mod_cast h2
      rw [Int.cast_abs] at h3
      exact h3
    have hpe : (2 : ℚ) ^ e' ≤ (2 : ℚ) ^ (e - 1) :=
      zpow_le_zpow_right₀ (by norm_num) (by omega)
    have hEm1 : (2 : ℚ) ^ (e - 1) = (2 : ℚ) ^ e / 2 := by
      rw [zpow_sub₀ (by norm_num : (2 : ℚ) ≠ 0), zpow_one]
    have hdabs : (m' : ℚ) * (2 : ℚ) ^ e' ≤
        ((2 ^ 53 - 1 : ℤ) : ℚ) * ((2 : ℚ) ^ e / 2) := by
      calc (m' : ℚ) * (2 : ℚ) ^ e' ≤ |(m' : ℚ)| * (2 : ℚ) ^ e' :=
            mul_le_mul_of_nonneg_right (le_abs_self _)
              (zpow_pos (by norm_num) e').le
      _ ≤ ((2 ^ 53 - 1 : ℤ) : ℚ) * ((2 : ℚ) ^ e / 2) := by
            rw [← hEm1]
            exact mul_le_mul hm'' hpe (zpow_pos (by norm_num) e').le
              (by positivity)
    have hconst : ((2 ^ 53 - 1 : ℤ) : ℚ) * ((2 : ℚ) ^ e / 2) =
        ((2 ^ 52 : ℤ) : ℚ) * (2 : ℚ) ^ e - (2 : ℚ) ^ e / 2 := by
      push_cast
      ring
    have hfar : (2 : ℚ) ^ e / 2 ≤ x - (m' : ℚ) * (2 : ℚ) ^ e' := by
      rw [hconst] at hdabs
      push_cast at hdabs hx1
      linarith
    have habs : x - (m' : ℚ) * (2 : ℚ) ^ e' ≤
        |x - (m' : ℚ) * (2 : ℚ) ^ e'| := le_abs_self _
    linarith

/-- C5 (counterexample): at the negative dyadic input `-1/256` every float
operation is exact, the product is `-39062.5`, and Python `int()` truncates
toward zero giving `-39062`, while `floor` gives `-39063`: the claimed
floor semantics fails. -/
theorem c5_counterexample :
    ¬ (∀ (s : ℚ) (k : ℤ), time_to_kronos_time s k → k = ⌊s * 10 ^ 7⌋) := by
  intro hall
  have hceil : pyTrunc (-(78125 / 2) : ℚ) = -39062 := by
    have hc : ⌈(-(78125 / 2) : ℚ)⌉ = -39062 := by
      rw [Int.ceil_eq_iff]
      constructor <;> norm_num
    rw [pyTrunc, if_neg (by norm_num), hc]
  have hrel : time_to_kronos_time (-(1 / 256) : ℚ) (-39062) := by
    refine ⟨-(1 / 256), -(78125 / 2),
      roundsTo_self ⟨-1, -8, by norm_num, by norm_num⟩, ?_, hceil.symm⟩
    rw [show (-(1 / 256) : ℚ) * 10 ^ 7 = -(78125 / 2) by norm_num]
    exact roundsTo_self ⟨-78125, -1, by norm_num, by norm_num⟩
  have hres := hall _ _ hrel
  rw [show ⌊(-(1 / 256) : ℚ) * 10 ^ 7⌋ = -39063 by norm_num] at hres
  norm_num at hres

/-- C5 (amended): on inputs whose value and whose exact product with 10^7
are representable, `time_to_kronos_time` returns the product truncated
toward zero — which agrees with `floor` exactly when the input is
non-negative — as an unbounded integer. -/
theorem c5_amended (s : ℚ) (k : ℤ) (hs : IsRepr s) (hp : IsRepr (s * 10 ^ 7))
    (h : time_to_kronos_time s k) :
    k = pyTrunc (s * 10 ^ 7) ∧ (0 ≤ s → k = ⌊s * 10 ^ 7⌋) := by
  obtain ⟨sf, p, h1, h2, h3⟩ := h
  rw [roundsTo_eq_self hs h1] at h2
  rw [roundsTo_eq_self hp h2] at h3
  refine ⟨h3, fun hs0 => ?_⟩
  rw [h3, pyTrunc, if_pos (mul_nonneg hs0 (by norm_num))]

/-- Witness for C5 amended at `s = 3/2`. -/
theorem c5_witness :
    (15000000 : ℤ) = pyTrunc ((3 / 2 : ℚ) * 10 ^ 7) ∧
    (0 ≤ (3 / 2 : ℚ) → (15000000 : ℤ) = ⌊(3 / 2 : ℚ) * 10 ^ 7⌋) :=
  c5_amended (3 / 2) 15000000 ⟨3, -1, by norm_num, by norm_num⟩
    ⟨15000000, 0, by norm_num, by norm_num⟩
    ⟨3 / 2, 15000000, roundsTo_self ⟨3, -1, by norm_num, by norm_num⟩,
      by
        rw [show (3 / 2 : ℚ) * 10 ^ 7 = 15000000 by norm_num]
        exact roundsTo_self ⟨15000000, 0, by norm_num, by norm_num⟩,
      by rw [pyTrunc, if_pos (by norm_num)]; norm_num⟩

/-- C8 (counterexample): at input `2^60` every float operation is exact and
`time_to_kronos_time` returns `10^7 * 2^60`, far beyond the signed 64-bit
maximum, instead of failing with OverflowError: Python integers are
unbounded and `int()` of a finite float never raises. -/
theorem c8_counterexample :
    ¬ (∀ (s : ℚ) (k : ℤ), time_to_kronos_time s k →
        -(2 ^ 63) ≤ k ∧ k < 2 ^ 63) := by
  intro hall
  have hrel : time_to_kronos_time (1152921504606846976 : ℚ)
      11529215046068469760000000 := by
    refine ⟨1152921504606846976, 11529215046068469760000000,
      roundsTo_self ⟨1, 60, by norm_num, by norm_num⟩, ?_, ?_⟩
    · rw [show (1152921504606846976 : ℚ) * 10 ^ 7 =
        11529215046068469760000000 by norm_num]
      exact roundsTo_self ⟨10000000, 60, by norm_num, by norm_num⟩
    · rw [pyTrunc, if_pos (by norm_num)]
      norm_num
  have hres := (hall _ _ hrel).2
  norm_num at hres

/-- C8 (amended): `time_to_kronos_time` performs no 64-bit range check: for
every `n` the input `2^n` is converted without error to `10^7 * 2^n`, which
from `n = 60` on exceeds the signed 64-bit maximum and is returned as is. -/
theorem c8_amended (n : ℕ) :
    time_to_kronos_time ((2 : ℚ) ^ n) ((10 ^ 7 : ℤ) * 2 ^ n) ∧
    (60 ≤ n → 2 ^ 63 < (10 ^ 7 : ℤ) * 2 ^ n) := by
  constructor
  · have hs : IsRepr ((2 : ℚ) ^ n) := ⟨1, (n : ℤ), by norm_num, by
      push_cast
      rw [zpow_natCast, one_mul]⟩
    have hp : ((2 : ℚ) ^ n) * 10 ^ 7 = (((10 ^ 7 : ℤ) * 2 ^ n : ℤ) : ℚ) := by
      push_cast
      ring
    refine ⟨(2 : ℚ) ^ n, (((10 ^ 7 : ℤ) * 2 ^ n : ℤ) : ℚ),
      roundsTo_self hs, ?_, ?_⟩
    · rw [hp]
      refine roundsTo_self ⟨10 ^ 7, (n : ℤ), by norm_num, ?_⟩
      push_cast
      rw [zpow_natCast]
    · rw [pyTrunc, if_pos (by positivity), Int.floor_intCast]
  · intro h60
    calc (2 : ℤ) ^ 63 < 10 ^ 7 * 2 ^ 60 := by norm_num
    _ ≤ 10 ^ 7 * 2 ^ n :=
      mul_le_mul_of_nonneg_left (pow_le_pow_right₀ (by norm_num) h60)
        (by norm_num)

/-- Witness for C8 amended at `n = 60`. -/
theorem c8_witness :
    time_to_kronos_time ((2 : ℚ) ^ 60) ((10 ^ 7 : ℤ) * 2 ^ 60) ∧
    (60 ≤ 60 → 2 ^ 63 < (10 ^ 7 : ℤ) * 2 ^ 60) :=
  c8_amended 60

/-- C3 (counterexample): at the integer input `s = 2^43 - 1` the exact
product `s * 10^7` needs 67 bits and rounds up by 5760 ticks; the quotient
on the way back rounds up again, and the returned value is `s + 2^-10`,
missing the claimed `1e-7` bound by four orders of magnitude. -/
theorem c3_counterexample :
    ¬ (∀ (s : ℚ) (k : ℤ) (r : ℚ), 0 ≤ s → s < 2 ^ 43 →
        time_to_kronos_time s k → kronos_time_to_time k r →
        |r - s| ≤ 1 / 10 ^ 7) := by
  intro hall
  have hRp : RoundsTo ((8796093022207 : ℚ) * 10 ^ 7)
      87960930222070005760 := by
    rw [show (8796093022207 : ℚ) * 10 ^ 7 = 87960930222070000000
      by norm_num]
    have h := roundsTo_of 5368709119999390 14 87960930222070000000
      (by norm_num) (by norm_num) (by norm_num)
      (by rw [abs_le]; constructor <;> norm_num)
    rw [show ((5368709119999390 : ℤ) : ℚ) * (2 : ℚ) ^ (14 : ℤ) =
      87960930222070005760 by norm_num] at h
    exact h
  have h1 : time_to_kronos_time (8796093022207 : ℚ)
      87960930222070005760 := by
    refine ⟨8796093022207, 87960930222070005760,
      roundsTo_self ⟨8796093022207, 0, by norm_num, by norm_num⟩, hRp, ?_⟩
    rw [pyTrunc, if_pos (by norm_num)]
    norm_num
  have hRdiv : RoundsTo ((87960930222070005760 : ℚ) / 10 ^ 7)
      (8796093022207 + 1 / 1024) := by
    have h := roundsTo_of 9007199254739969 (-10)
      ((87960930222070005760 : ℚ) / 10 ^ 7)
      (by norm_num) (by norm_num) (by norm_num)
      (by rw [abs_le]; constructor <;> norm_num)
    rw [show ((9007199254739969 : ℤ) : ℚ) * (2 : ℚ) ^ (-10 : ℤ) =
      8796093022207 + 1 / 1024 by norm_num] at h
    exact h
  have h2 : kronos_time_to_time 87960930222070005760
      (8796093022207 + 1 / 1024) := by
    refine ⟨87960930222070005760, ?_, ?_⟩
    · rw [show ((87960930222070005760 : ℤ) : ℚ) = 87960930222070005760
        by norm_num]
      exact roundsTo_self ⟨5368709119999390, 14, by norm_num, by norm_num⟩
    · exact hRdiv
  have hres := hall _ _ _ (by norm_num) (by norm_num) h1 h2
  rw [abs_le] at hres
  norm_num at hres

/-- C3 (amended): for integer Unix seconds below `2^29` every intermediate
value is exactly representable and the round trip returns the input
exactly, hence within `1e-7`; the claimed range `[0, 2^43)` is too large. -/
theorem c3_amended (s : ℕ) (hs : s < 2 ^ 29) (k : ℤ) (r : ℚ)
    (h1 : time_to_kronos_time (s : ℚ) k)
    (h2 : kronos_time_to_time k r) :
    r = (s : ℚ) ∧ |r - (s : ℚ)| ≤ 1 / 10 ^ 7 := by
  have hreprs : IsRepr (s : ℚ) :=
    ⟨(s : ℤ), 0, by rw [Int.natAbs_ofNat]; omega, by push_cast; ring⟩
  obtain ⟨sf, p, hsf, hp, hk⟩ := h1
  rw [roundsTo_eq_self hreprs hsf] at hp
  have hprodcast : (s : ℚ) * 10 ^ 7 = (((s : ℤ) * 10 ^ 7 : ℤ) : ℚ) := by
    push_cast
    ring
  have hreprp : IsRepr ((s : ℚ) * 10 ^ 7) :=
    ⟨(s : ℤ) * 10 ^ 7, 0, by omega, by push_cast; ring⟩
  rw [roundsTo_eq_self hreprp hp] at hk
  have hkval : k = (s : ℤ) * 10 ^ 7 := by
    rw [hk, hprodcast, pyTrunc, if_pos (by positivity), Int.floor_intCast]
  obtain ⟨kf, hkf, hr⟩ := h2
  have hreprk : IsRepr (k : ℚ) := by
    rw [hkval]
    exact ⟨(s : ℤ) * 10 ^ 7, 0, by omega, by push_cast; ring⟩
  rw [roundsTo_eq_self hreprk hkf] at hr
  have hquot : (k : ℚ) / 10 ^ 7 = (s : ℚ) := by
    rw [hkval]
    push_cast
    rw [mul_div_assoc]
    norm_num
  rw [hquot] at hr
  have hrs := roundsTo_eq_self hreprs hr
  exact ⟨hrs, by rw [hrs, sub_self, abs_zero]; positivity⟩

/-- Witness for C3 amended at `s = 42`. -/
theorem c3_witness :
    (42 : ℚ) = ((42 : ℕ) : ℚ) ∧ |(42 : ℚ) - ((42 : ℕ) : ℚ)| ≤ 1 / 10 ^ 7 :=
  c3_amended 42 (by norm_num) 420000000 42
    ⟨((42 : ℕ) : ℚ), 420000000,
      roundsTo_self ⟨42, 0, by norm_num, by norm_num⟩,
      by
        rw [show (((42 : ℕ) : ℚ)) * 10 ^ 7 = 420000000 by norm_num]
        exact roundsTo_self ⟨420000000, 0, by norm_num, by norm_num⟩,
      by rw [pyTrunc, if_pos (by norm_num)]; norm_num⟩
    ⟨420000000,
      by
        rw [show ((420000000 : ℤ) : ℚ) = 420000000 by norm_num]
        exact roundsTo_self ⟨420000000, 0, by norm_num, by norm_num⟩,
      by
        rw [show (420000000 : ℚ) / 10 ^ 7 = ((42 : ℕ) : ℚ) by norm_num]
        exact roundsTo_self ⟨42, 0, by norm_num, by norm_num⟩⟩

end Kronos
